import Mathlib

/-!
# auth-service: refresh-token lifecycle

A shallow embedding of `auth-service.go`.

* Go strings that are sliced or hashed (tokens, hashes, secrets) are byte
  lists; user identifiers and client addresses, which are only compared for
  equality, are `String`s.
* The `refresh_tokens` table is a list of rows.  The three SQL statements of
  the program are functions on that list; a statement that the datastore
  refuses is an input of the call (`DBFaults`) and leaves the table as it was.
* `time.Now()` is an input of the call, counted in nanoseconds since the Unix
  epoch.
* The libraries the program calls (`bcrypt`, `sha512`, `jwt-go`) are
  parameters; the properties of theirs that a result relies on are explicit
  hypotheses of that result.  `bcryptOf` builds the two bcrypt calls from the
  way the package feeds a password to the Blowfish key schedule, with the
  cipher itself a parameter.
-/

namespace AuthService

/-- One byte of a Go `string` or `[]byte`. -/
abbrev Byte := Fin 256

/-- Go `error` values that occur in the program. -/
inductive Error where
  /-- An error made with `errors.New` in `auth-service.go`. -/
  | new (msg : String)
  /-- The sentinel `sql.ErrNoRows`. -/
  | ErrNoRows
  /-- Any other error reported by the datastore driver. -/
  | db (msg : String)
  /-- An error reported by the `bcrypt` package. -/
  | bcrypt (msg : String)
  /-- An error reported by `crypto/rand`. -/
  | rand (msg : String)
  /-- An error reported by the `jwt-go` package. -/
  | jwt (msg : String)
  /-- An error reported by the request body parser or the validator. -/
  | request (msg : String)
  deriving DecidableEq, Repr

/-- The Go type `RefreshTokenEntry`, one row of the table `refresh_tokens`. -/
structure RefreshTokenEntry where
  UserID : String
  RefreshTokenHash : List Byte
  ClientIP : String
  CreatedAt : Int
  deriving DecidableEq, Repr

/-- The contents of the table `refresh_tokens`, in physical row order. -/
abbrev Table := List RefreshTokenEntry

/-- The package `golang.org/x/crypto/bcrypt`, as far as the program uses it.
`GenerateFromPassword password cost salt` is the call of that name, with the
random salt it draws made an argument; `CompareHashAndPassword hash password`
is `true` when the Go function returns a nil error. -/
structure Bcrypt where
  GenerateFromPassword : List Byte → Nat → List Byte → Except Error (List Byte)
  CompareHashAndPassword : List Byte → List Byte → Bool

/-- The constant `bcrypt.DefaultCost`. -/
def Bcrypt.DefaultCost : Nat := 10

/-- The hash primitive reads no more than the first 72 bytes of a password. -/
def Bcrypt.Truncates (B : Bcrypt) : Prop :=
  ∀ hash password, B.CompareHashAndPassword hash password
    = B.CompareHashAndPassword hash (password.take 72)

/-- A hash made from a password is accepted for that password. -/
def Bcrypt.Accepts (B : Bcrypt) : Prop :=
  ∀ password cost salt hash, B.GenerateFromPassword password cost salt = .ok hash →
    B.CompareHashAndPassword hash password = true

/-- No collisions between passwords of 72 bytes or more that differ within
their first 72 bytes (the idealisation of a cryptographic hash). -/
def Bcrypt.CollisionFree (B : Bcrypt) : Prop :=
  ∀ p q cost salt hash, 72 ≤ p.length → 72 ≤ q.length →
    B.GenerateFromPassword p cost salt = .ok hash →
    B.CompareHashAndPassword hash q = true → p.take 72 = q.take 72

/-- The 72 key bytes that the Blowfish key schedule of bcrypt reads from a
password: the password followed by a NUL byte, repeated cyclically. -/
def keyBytes (password : List Byte) : List Byte :=
  (List.range 72).map fun i => (password ++ [0]).getD (i % (password.length + 1)) 0

/-- An idealised bcrypt: the hash of a password is the 16-byte salt followed
by the 72 key bytes themselves.  It is the instance at which the results that
assume properties of the hash primitive are evaluated. -/
def idealBcrypt : Bcrypt where
  GenerateFromPassword password _ salt :=
    if salt.length = 16 then .ok (salt ++ keyBytes password)
    else .error (.bcrypt "short salt")
  CompareHashAndPassword hash password :=
    hash.length == 88 && hash.drop 16 == keyBytes password

/-- The layout of a bcrypt hash, reduced to its three parts: the cost, the
16-byte salt and the digest. -/
def encodeHash (cost : Nat) (salt digest : List Byte) : List Byte :=
  Fin.ofNat cost :: (salt ++ digest)

/-- The inverse of `encodeHash`; `none` for a hash that is too short. -/
def decodeHash (hash : List Byte) : Option (Nat × List Byte × List Byte) :=
  match hash with
  | [] => none
  | c :: rest => if rest.length < 16 then none else some (c.val, rest.take 16, rest.drop 16)

/-- The cost `GenerateFromPassword` works with: a cost below the minimum 4 is
replaced by the default cost. -/
def effectiveCost (cost : Nat) : Nat := if cost < 4 then Bcrypt.DefaultCost else cost

/-- The two calls of the bcrypt package, built as the package builds them.
Both hand the password to the Blowfish key schedule, which reads the 72 bytes
`keyBytes password` and nothing else of it; `crypt cost salt key` is the
expensive key setup and encryption that follows.  `GenerateFromPassword`
refuses a password longer than 72 bytes, replaces a cost below 4 by the default
cost and refuses a cost above 31; `CompareHashAndPassword` does not look at the
length of the password: it recomputes the digest with the cost and salt of the
hash and compares. -/
def bcryptOf (crypt : Nat → List Byte → List Byte → List Byte) : Bcrypt where
  GenerateFromPassword password cost salt :=
    if 72 < password.length then .error (.bcrypt "password length exceeds 72 bytes")
    else if salt.length ≠ 16 then .error (.rand "unexpected EOF")
    else if 31 < effectiveCost cost then .error (.bcrypt "cost is outside allowed range")
    else .ok (encodeHash (effectiveCost cost) salt
      (crypt (effectiveCost cost) salt (keyBytes password)))
  CompareHashAndPassword hash password :=
    match decodeHash hash with
    | none => false
    | some (cost, salt, digest) => crypt cost salt (keyBytes password) == digest

/-- A stand-in for the cipher of bcrypt that returns the key bytes unchanged;
`bcryptOf sampleCrypt` is used to evaluate results on concrete tokens. -/
def sampleCrypt (_cost : Nat) (_salt key : List Byte) : List Byte := key

/-- What the datastore refuses during one call: `query` is the error of the
`SELECT`, `exec` the error of the `INSERT` or `DELETE`, when it fails. -/
structure DBFaults where
  query : Option String
  exec : Option String
  deriving DecidableEq, Repr

/-- A datastore that answers every statement. -/
def noFaults : DBFaults := ⟨none, none⟩

/-- Lines written by `log.Printf`, `log.Println` and `fmt.Printf`. -/
inductive LogLine where
  | hashError (err : Error)
  | storing (userID clientIP : String)
  | insertError (err : Error)
  | stored
  | ipChanged (userID oldIP newIP : String)
  deriving DecidableEq, Repr

/-- The statement `INSERT INTO refresh_tokens (user_id, refresh_token_hash,
client_ip, created_at) VALUES ($1, $2, $3, $4)`. -/
def execInsert (t : Table) (row : RefreshTokenEntry) (f : DBFaults) : Except Error Table :=
  match f.exec with
  | some msg => .error (.db msg)
  | none => .ok (t ++ [row])

/-- The newer of an optional row and a row; the first one found is kept when
the creation times are equal. -/
def newer (best : Option RefreshTokenEntry) (r : RefreshTokenEntry) : Option RefreshTokenEntry :=
  match best with
  | none => some r
  | some b => if b.CreatedAt < r.CreatedAt then some r else some b

/-- The row that `WHERE user_id = $1 ORDER BY created_at DESC LIMIT 1` selects. -/
def latest (t : Table) (userID : String) : Option RefreshTokenEntry :=
  (t.filter fun r => r.UserID = userID).foldl newer none

/-- The statement `SELECT refresh_token_hash, client_ip FROM refresh_tokens
WHERE user_id = $1 ORDER BY created_at DESC LIMIT 1`, scanned into an entry. -/
def queryRowLatest (t : Table) (userID : String) (f : DBFaults) : Except Error RefreshTokenEntry :=
  match f.query with
  | some msg => .error (.db msg)
  | none =>
    match latest t userID with
    | none => .error .ErrNoRows
    | some r => .ok r

/-- The statement `DELETE FROM refresh_tokens WHERE user_id = $1 AND
refresh_token_hash = $2`. -/
def execDelete (t : Table) (userID : String) (hash : List Byte) (f : DBFaults) : Except Error Table :=
  match f.exec with
  | some msg => .error (.db msg)
  | none => .ok (t.filter fun r => ¬ (r.UserID = userID ∧ r.RefreshTokenHash = hash))

/-- What a call of `StoreRefreshToken` leaves behind: the returned error
(`none` for nil), the table and the log lines. -/
structure StoreResult where
  err : Option Error
  table : Table
  log : List LogLine
  deriving DecidableEq, Repr

/-- The Go function `StoreRefreshToken`.  `none` is the run-time panic of the
slice expression `token[:72]` on a token shorter than 72 bytes. -/
def StoreRefreshToken (B : Bcrypt) (t : Table) (userID : String) (token : List Byte)
    (clientIP : String) (now : Int) (salt : List Byte) (f : DBFaults) : Option StoreResult :=
  if token.length < 72 then none
  else
    let trimmedToken := token.take 72
    match B.GenerateFromPassword trimmedToken Bcrypt.DefaultCost salt with
    | .error err => some ⟨some err, t, [.hashError err]⟩
    | .ok hash =>
      match execInsert t ⟨userID, hash, clientIP, now⟩ f with
      | .error err => some ⟨some err, t, [.storing userID clientIP, .insertError err]⟩
      | .ok t1 => some ⟨none, t1, [.storing userID clientIP, .stored]⟩

/-- What a call of `VerifyRefreshToken` leaves behind: the two returned
values, the table and the lines printed. -/
structure VerifyResult where
  valid : Bool
  err : Option Error
  table : Table
  log : List LogLine
  deriving DecidableEq, Repr

/-- The error `errors.New("refresh token not found")`. -/
def errNotFound : Error := .new "refresh token not found"

/-- The error `errors.New("invalid refresh token")`. -/
def errInvalid : Error := .new "invalid refresh token"

/-- The Go function `VerifyRefreshToken`. -/
def VerifyRefreshToken (B : Bcrypt) (t : Table) (userID : String) (token : List Byte)
    (clientIP : String) (f : DBFaults) : VerifyResult :=
  match queryRowLatest t userID f with
  | .error .ErrNoRows => ⟨false, some errNotFound, t, []⟩
  | .error err => ⟨false, some err, t, []⟩
  | .ok entry =>
    if B.CompareHashAndPassword entry.RefreshTokenHash token = false then
      ⟨false, some errInvalid, t, []⟩
    else
      let log := if entry.ClientIP ≠ clientIP then [LogLine.ipChanged userID entry.ClientIP clientIP] else []
      match execDelete t userID entry.RefreshTokenHash f with
      | .error err => ⟨false, some err, t, log⟩
      | .ok t1 => ⟨true, none, t1, log⟩

/-- A token of `n` bytes, all equal to `b`. -/
def sampleToken (n : Nat) (b : Byte) : List Byte := List.replicate n b

/-- A 16-byte salt, all bytes equal to `b`. -/
def sampleSalt (b : Byte) : List Byte := List.replicate 16 b

/-- The row that `StoreRefreshToken` inserts under `idealBcrypt` for a token
of at least 72 bytes and a 16-byte salt. -/
def sampleRow (userID : String) (token salt : List Byte) (clientIP : String) (createdAt : Int) :
    RefreshTokenEntry :=
  ⟨userID, salt ++ keyBytes (token.take 72), clientIP, createdAt⟩

/-- An 88-byte token of letters `A`. -/
def tokenA : List Byte := sampleToken 88 65

/-- An 88-byte token of letters `B`. -/
def tokenB : List Byte := sampleToken 88 66

/-- A table in which user `u` has an older row for `tokenA` and a newer row
for `tokenB`. -/
def twoRows : Table :=
  [sampleRow "u" tokenA (sampleSalt 1) "10.0.0.1" 5, sampleRow "u" tokenB (sampleSalt 2) "10.0.0.1" 9]

/-- A table in which user `u` already has a row for `tokenB` created at time 9. -/
def laterRow : Table := [sampleRow "u" tokenB (sampleSalt 2) "10.0.0.1" 9]

/-- A table in which user `u` already has a row for `tokenA` created at time 5. -/
def sameTokenRow : Table := [sampleRow "u" tokenA (sampleSalt 1) "10.0.0.1" 5]

/-! ### `encoding/base64`, `crypto/sha512` and `GenerateRefreshToken` -/

/-- The 64-character alphabet of `base64.URLEncoding`, as bytes. -/
def encodeURL : List Byte :=
  "ABCDEFGHIJKLMNOPQRSTUVWXYZabcdefghijklmnopqrstuvwxyz0123456789-_".toList.map
    fun c => Fin.ofNat c.toNat

/-- The padding character `base64.StdPadding`, the byte of `=`. -/
def StdPadding : Byte := 61

/-- The table lookup `enc.encode[v & 0x3F]`. -/
def encodeByte (v : Nat) : Byte := encodeURL.getD (v &&& 0x3F) 0

/-- The method `base64.URLEncoding.EncodeToString`: each full group of three
source bytes gives four characters; a rest of one or two bytes gives two or
three characters and is padded to four. -/
def EncodeToString : List Byte → List Byte
  | [] => []
  | [a] =>
    let val := a.val <<< 16
    [encodeByte (val >>> 18), encodeByte (val >>> 12), StdPadding, StdPadding]
  | [a, b] =>
    let val := a.val <<< 16 ||| b.val <<< 8
    [encodeByte (val >>> 18), encodeByte (val >>> 12), encodeByte (val >>> 6), StdPadding]
  | a :: b :: c :: rest =>
    let val := a.val <<< 16 ||| b.val <<< 8 ||| c.val
    [encodeByte (val >>> 18), encodeByte (val >>> 12), encodeByte (val >>> 6), encodeByte val]
      ++ EncodeToString rest

/-- The function `sha512.Sum512`, whose result type is `[64]byte`. -/
structure SHA512 where
  Sum512 : List Byte → List Byte
  size : ∀ data, (Sum512 data).length = 64

/-- The Go function `GenerateRefreshToken`; `raw` is what `rand.Read` leaves in
the 64-byte buffer, or its error. -/
def GenerateRefreshToken (H : SHA512) (raw : Except Error (List Byte)) : Except Error (List Byte) :=
  match raw with
  | .error err => .error err
  | .ok raw =>
    let hash := H.Sum512 raw
    .ok (EncodeToString hash)

/-- The characters of the URL-safe base64 alphabet: `A`-`Z`, `a`-`z`, `0`-`9`,
`-` and `_`. -/
def isURLSafeChar (b : Byte) : Bool :=
  (65 ≤ b.val && b.val ≤ 90) || (97 ≤ b.val && b.val ≤ 122) || (48 ≤ b.val && b.val ≤ 57)
    || b.val == 45 || b.val == 95

/-- The bytes of an ASCII string. -/
def ascii (s : String) : List Byte := s.toList.map fun c => Fin.ofNat c.toNat

/-! ### `jwt-go`, `time` and `GenerateAccessToken` -/

/-- A value in a `jwt.MapClaims` map: a string or a number. -/
inductive ClaimValue where
  | str (s : String)
  | num (n : Int)
  deriving DecidableEq, Repr

/-- The Go type `jwt.MapClaims`, as the list of its entries. -/
abbrev MapClaims := List (String × ClaimValue)

/-- The signing methods of `jwt-go` that use a shared secret. -/
inductive SigningMethod where
  | HS256
  | HS384
  | HS512
  deriving DecidableEq, Repr

/-- The package `github.com/dgrijalva/jwt-go`, as far as the program and its
test use it.  `SignedString method claims key` stands for
`jwt.NewWithClaims(method, claims).SignedString(key)`, and `Parse token key`
for the claims of `jwt.Parse(token, keyFunc)` where `keyFunc` returns `key`.
`Token` is the type of signed tokens, which the program never inspects. -/
structure JWT where
  Token : Type
  SignedString : SigningMethod → MapClaims → List Byte → Except Error Token
  Parse : Token → List Byte → Except Error MapClaims

/-- Signing with `HS512` and a byte key succeeds, and parsing the signed token
with the same key gives back the claims that were signed. -/
def JWT.RoundTrips (J : JWT) : Prop :=
  ∀ claims key, ∃ token, J.SignedString .HS512 claims key = .ok token ∧
    J.Parse token key = .ok claims

/-- An idealised token library: a token is the claims together with the key
that signed them, and parsing checks the key.  It is the instance at which the
results that assume `JWT.RoundTrips` are evaluated. -/
def idealJWT : JWT where
  Token := MapClaims × List Byte
  SignedString _ claims key := .ok (claims, key)
  Parse token key := if token.2 = key then .ok token.1 else .error (.jwt "signature is invalid")

/-- The constant `time.Minute`, a duration in nanoseconds. -/
def Minute : Int := 60 * 1000000000

/-- The method `Time.Add` on instants counted in nanoseconds. -/
def Add (t d : Int) : Int := t + d

/-- The method `Time.Unix`: whole seconds since the epoch, rounded down. -/
def Unix (t : Int) : Int := t / 1000000000

/-- The Go function `GenerateAccessToken`; `jwtSecret` is the global of that
name and `now` the value of `time.Now()`. -/
def GenerateAccessToken (J : JWT) (jwtSecret : List Byte) (userID clientIP : String) (now : Int) :
    Except Error J.Token :=
  let claims : MapClaims :=
    [("user_id", .str userID), ("client_ip", .str clientIP),
     ("exp", .num (Unix (Add now (Minute * 15))))]
  J.SignedString .HS512 claims jwtSecret

/-! ### The routes `POST /api/auth/token` and `POST /api/auth/refresh` -/

/-- The characters `0`-`9` and `a`-`f`. -/
def isLowerHex (c : Char) : Bool :=
  (48 ≤ c.toNat && c.toNat ≤ 57) || (97 ≤ c.toNat && c.toNat ≤ 102)

/-- The validator tag `uuid4`: the string matches
`^[0-9a-f]{8}-[0-9a-f]{4}-4[0-9a-f]{3}-[89ab][0-9a-f]{3}-[0-9a-f]{12}$`. -/
def isUUID4 (s : String) : Bool :=
  s.toList.length == 36 && (List.range 36).all fun i =>
    let c := s.toList.getD i ' '
    if i = 8 ∨ i = 13 ∨ i = 18 ∨ i = 23 then c == '-'
    else if i = 14 then c == '4'
    else if i = 19 then c == '8' || c == '9' || c == 'a' || c == 'b'
    else isLowerHex c

/-- The request body of the token route. -/
structure TokenRequest where
  UserID : String
  deriving DecidableEq, Repr

/-- The request body of the refresh route. -/
structure RefreshRequest where
  UserID : String
  RefreshToken : List Byte
  deriving DecidableEq, Repr

/-- The call `validate.Struct(req)` on a token request: `UserID` carries the
tags `required,uuid4`.  `none` means the request is accepted. -/
def validateToken (req : TokenRequest) : Option Error :=
  if req.UserID = "" then some (.request "UserID: required")
  else if isUUID4 req.UserID = false then some (.request "UserID: uuid4")
  else none

/-- The call `validate.Struct(req)` on a refresh request: `UserID` carries the
tags `required,uuid4` and `RefreshToken` the tag `required`. -/
def validateRefresh (req : RefreshRequest) : Option Error :=
  if req.UserID = "" then some (.request "UserID: required")
  else if isUUID4 req.UserID = false then some (.request "UserID: uuid4")
  else if req.RefreshToken = [] then some (.request "RefreshToken: required")
  else none

/-- The Go type `TokenPair`. -/
structure TokenPair (Tok : Type) where
  AccessToken : Tok
  RefreshToken : List Byte

/-- The JSON bodies the two routes answer with. -/
inductive Body (Tok : Type) where
  | error (msg : String)
  | accessToken (token : Tok)
  | tokenPair (pair : TokenPair Tok)

/-- An HTTP response: status code and JSON body. -/
structure Response (Tok : Type) where
  status : Nat
  body : Body Tok

/-- The constant `fiber.StatusOK`. -/
def StatusOK : Nat := 200

/-- The constant `fiber.StatusBadRequest`. -/
def StatusBadRequest : Nat := 400

/-- The constant `fiber.StatusUnauthorized`. -/
def StatusUnauthorized : Nat := 401

/-- The constant `fiber.StatusInternalServerError`. -/
def StatusInternalServerError : Nat := 500

/-- The handler of `POST /api/auth/token`.  `parsed` is the outcome of
`c.BodyParser(&req)`, `clientIP` the host part of the remote address, `now` and
`storeNow` the two readings of the clock, `raw` what `rand.Read` delivers and
`salt` the salt bcrypt draws.  The result is the response and the table the
handler leaves; `none` is the panic of `StoreRefreshToken`. -/
def tokenHandler (B : Bcrypt) (J : JWT) (H : SHA512) (jwtSecret : List Byte) (t : Table)
    (parsed : Except Error TokenRequest) (clientIP : String) (now : Int)
    (raw : Except Error (List Byte)) (salt : List Byte) (storeNow : Int) (f : DBFaults) :
    Option (Response J.Token × Table) :=
  match parsed with
  | .error _ => some (⟨StatusBadRequest, .error "Invalid input"⟩, t)
  | .ok req =>
    match validateToken req with
    | some _ => some (⟨StatusBadRequest, .error "Validation failed"⟩, t)
    | none =>
      match GenerateAccessToken J jwtSecret req.UserID clientIP now with
      | .error _ =>
        some (⟨StatusInternalServerError, .error "Failed to generate access token"⟩, t)
      | .ok accessToken =>
        match GenerateRefreshToken H raw with
        | .error _ =>
          some (⟨StatusInternalServerError, .error "Failed to generate refresh token"⟩, t)
        | .ok refreshToken =>
          match StoreRefreshToken B t req.UserID refreshToken clientIP storeNow salt f with
          | none => none
          | some r =>
            match r.err with
            | some _ =>
              some (⟨StatusInternalServerError, .error "Failed to store refresh token"⟩, r.table)
            | none => some (⟨StatusOK, .tokenPair ⟨accessToken, refreshToken⟩⟩, r.table)

/-- The handler of `POST /api/auth/refresh`.  `parsed` is the outcome of
`c.BodyParser(&req)` and `clientIP` the host part of the remote address.  The
result is the response and the table the handler leaves. -/
def refreshHandler (B : Bcrypt) (J : JWT) (jwtSecret : List Byte) (t : Table)
    (parsed : Except Error RefreshRequest) (clientIP : String) (now : Int) (f : DBFaults) :
    Response J.Token × Table :=
  match parsed with
  | .error _ => (⟨StatusBadRequest, .error "Invalid input"⟩, t)
  | .ok req =>
    match validateRefresh req with
    | some _ => (⟨StatusBadRequest, .error "Validation failed"⟩, t)
    | none =>
      let v := VerifyRefreshToken B t req.UserID req.RefreshToken clientIP f
      if v.err ≠ none ∨ v.valid = false then
        (⟨StatusUnauthorized, .error "Invalid refresh token"⟩, v.table)
      else
        match GenerateAccessToken J jwtSecret req.UserID clientIP now with
        | .error _ => (⟨StatusInternalServerError, .error "Failed to generate access token"⟩, v.table)
        | .ok accessToken => (⟨StatusOK, .accessToken accessToken⟩, v.table)

/-- A stand-in for `sha512.Sum512` with the right result size: the first 64
bytes of the data, padded with zeros.  It is used to evaluate the token route. -/
def sampleSum512 : SHA512 where
  Sum512 data := (data ++ List.replicate 64 0).take 64
  size := by intro data; simp

/-- A version 4 UUID. -/
def uuidUser : String := "11111111-1111-4111-8111-111111111111"

/-- A table in which `uuidUser` has one row, for `tokenA`. -/
def uuidRow : Table := [sampleRow uuidUser tokenA (sampleSalt 1) "10.0.0.1" 5]

/-- The row `StoreRefreshToken` inserts under `bcryptOf sampleCrypt`. -/
def cryptRow (userID : String) (token salt : List Byte) (clientIP : String) (createdAt : Int) :
    RefreshTokenEntry :=
  ⟨userID, encodeHash Bcrypt.DefaultCost salt (keyBytes (token.take 72)), clientIP, createdAt⟩

/-! ## The table and its three statements -/

theorem foldl_newer_some (l : List RefreshTokenEntry) (b : RefreshTokenEntry) :
    ∃ r, l.foldl newer (some b) = some r ∧ (r = b ∨ r ∈ l) ∧ b.CreatedAt ≤ r.CreatedAt ∧
      ∀ x ∈ l, x.CreatedAt ≤ r.CreatedAt := by
  induction l generalizing b with
  | nil => exact ⟨b, rfl, Or.inl rfl, le_refl _, by simp⟩
  | cons a l ih =>
    simp only [List.foldl_cons, newer]
    by_cases h : b.CreatedAt < a.CreatedAt
    · rw [if_pos h]
      obtain ⟨r, hr, hmem, hle, hall⟩ := ih a
      refine ⟨r, hr, ?_, by omega, ?_⟩
      · rcases hmem with h1 | h1
        · exact Or.inr (by simp [h1])
        · exact Or.inr (by simp [h1])
      · intro x hx
        rcases List.mem_cons.mp hx with h1 | h1
        · rw [h1]; exact hle
        · exact hall x h1
    · rw [if_neg h]
      obtain ⟨r, hr, hmem, hle, hall⟩ := ih b
      refine ⟨r, hr, ?_, hle, ?_⟩
      · rcases hmem with h1 | h1
        · exact Or.inl h1
        · exact Or.inr (by simp [h1])
      · intro x hx
        rcases List.mem_cons.mp hx with h1 | h1
        · rw [h1]; omega
        · exact hall x h1

theorem latest_eq_none_iff (t : Table) (u : String) :
    latest t u = none ↔ ∀ r ∈ t, r.UserID ≠ u := by
  unfold latest
  constructor
  · intro h r hr hu
    have hmem : r ∈ t.filter (fun r => r.UserID = u) := by simp [List.mem_filter, hr, hu]
    cases hl : t.filter (fun r => r.UserID = u) with
    | nil => rw [hl] at hmem; simp at hmem
    | cons a l =>
      rw [hl] at h
      obtain ⟨x, hx, _⟩ := foldl_newer_some l a
      simp only [List.foldl_cons, newer] at h
      rw [hx] at h
      simp at h
  · intro h
    have : t.filter (fun r => r.UserID = u) = [] := by
      simp only [List.filter_eq_nil_iff, decide_eq_true_eq]
      exact h
    rw [this]; rfl

theorem latest_some_spec (t : Table) (u : String) (e : RefreshTokenEntry)
    (h : latest t u = some e) :
    e ∈ t ∧ e.UserID = u ∧ ∀ r ∈ t, r.UserID = u → r.CreatedAt ≤ e.CreatedAt := by
  unfold latest at h
  cases hl : t.filter (fun r => r.UserID = u) with
  | nil => rw [hl] at h; simp at h
  | cons a l =>
    rw [hl] at h
    obtain ⟨x, hx, hmem, hle, hall⟩ := foldl_newer_some l a
    simp only [List.foldl_cons, newer] at h
    rw [hx] at h
    have hxe : x = e := by simpa using h
    subst hxe
    have hin : x ∈ t.filter (fun r => r.UserID = u) := by
      rw [hl]
      rcases hmem with h1 | h1
      · simp [h1]
      · simp [h1]
    have hin2 := List.mem_filter.mp hin
    refine ⟨hin2.1, by simpa using hin2.2, ?_⟩
    intro r hr hru
    have hrin : r ∈ t.filter (fun r => r.UserID = u) := by simp [List.mem_filter, hr, hru]
    rw [hl] at hrin
    rcases List.mem_cons.mp hrin with h1 | h1
    · rw [h1]; exact hle
    · exact hall r h1

theorem latest_append_newer (t : Table) (u : String) (e : RefreshTokenEntry)
    (hu : e.UserID = u) (hnew : ∀ r ∈ t, r.UserID = u → r.CreatedAt < e.CreatedAt) :
    latest (t ++ [e]) u = some e := by
  cases hl : latest t u with
  | none =>
    unfold latest at hl ⊢
    simp only [List.filter_append, List.foldl_append, hl]
    simp [List.filter, hu, newer]
  | some b =>
    have hb := latest_some_spec t u b hl
    have hlt := hnew b hb.1 hb.2.1
    unfold latest at hl ⊢
    simp only [List.filter_append, List.foldl_append, hl]
    simp [List.filter, hu, newer, hlt]

/-! ## The five ways through `VerifyRefreshToken` -/

theorem verify_query_fault (B : Bcrypt) (t : Table) (u : String) (token : List Byte)
    (ip : String) (f : DBFaults) (msg : String) (hq : f.query = some msg) :
    VerifyRefreshToken B t u token ip f = ⟨false, some (.db msg), t, []⟩ := by
  simp [VerifyRefreshToken, queryRowLatest, hq]

theorem verify_no_rows (B : Bcrypt) (t : Table) (u : String) (token : List Byte)
    (ip : String) (f : DBFaults) (hq : f.query = none) (hl : latest t u = none) :
    VerifyRefreshToken B t u token ip f = ⟨false, some errNotFound, t, []⟩ := by
  simp [VerifyRefreshToken, queryRowLatest, hq, hl]

theorem verify_mismatch (B : Bcrypt) (t : Table) (u : String) (token : List Byte)
    (ip : String) (f : DBFaults) (e : RefreshTokenEntry) (hq : f.query = none)
    (hl : latest t u = some e)
    (hc : B.CompareHashAndPassword e.RefreshTokenHash token = false) :
    VerifyRefreshToken B t u token ip f = ⟨false, some errInvalid, t, []⟩ := by
  simp [VerifyRefreshToken, queryRowLatest, hq, hl, hc]

theorem verify_delete_fault (B : Bcrypt) (t : Table) (u : String) (token : List Byte)
    (ip : String) (f : DBFaults) (e : RefreshTokenEntry) (msg : String) (hq : f.query = none)
    (hl : latest t u = some e)
    (hc : B.CompareHashAndPassword e.RefreshTokenHash token = true)
    (hx : f.exec = some msg) :
    VerifyRefreshToken B t u token ip f
      = ⟨false, some (.db msg), t,
          if e.ClientIP ≠ ip then [LogLine.ipChanged u e.ClientIP ip] else []⟩ := by
  simp [VerifyRefreshToken, queryRowLatest, execDelete, hq, hl, hc, hx]

theorem verify_match (B : Bcrypt) (t : Table) (u : String) (token : List Byte)
    (ip : String) (f : DBFaults) (e : RefreshTokenEntry) (hq : f.query = none)
    (hl : latest t u = some e)
    (hc : B.CompareHashAndPassword e.RefreshTokenHash token = true)
    (hx : f.exec = none) :
    VerifyRefreshToken B t u token ip f
      = ⟨true, none, t.filter (fun r => ¬ (r.UserID = u ∧ r.RefreshTokenHash = e.RefreshTokenHash)),
          if e.ClientIP ≠ ip then [LogLine.ipChanged u e.ClientIP ip] else []⟩ := by
  simp [VerifyRefreshToken, queryRowLatest, execDelete, hq, hl, hc, hx]

/-! ## Claims about `VerifyRefreshToken` alone -/

/-- C2: a presented token that matches none of the hashes stored for the user
makes `VerifyRefreshToken` return `false` with an error and leave the table
exactly as it was; when the lookup is answered, the error is
`refresh token not found` if the user has no row and `invalid refresh token`
otherwise. -/
theorem verify_unmatched_fails_unchanged (B : Bcrypt) (t : Table) (u : String)
    (token : List Byte) (ip : String) (f : DBFaults)
    (hno : ∀ r ∈ t, r.UserID = u → B.CompareHashAndPassword r.RefreshTokenHash token = false) :
    (VerifyRefreshToken B t u token ip f).valid = false ∧
    (VerifyRefreshToken B t u token ip f).err ≠ none ∧
    (VerifyRefreshToken B t u token ip f).table = t ∧
    (f.query = none → (∀ r ∈ t, r.UserID ≠ u) →
      (VerifyRefreshToken B t u token ip f).err = some errNotFound) ∧
    (f.query = none → (∃ r ∈ t, r.UserID = u) →
      (VerifyRefreshToken B t u token ip f).err = some errInvalid) := by
  cases hq : f.query with
  | some msg =>
    rw [verify_query_fault B t u token ip f msg hq]
    simp
  | none =>
    cases hl : latest t u with
    | none =>
      rw [verify_no_rows B t u token ip f hq hl]
      have hnone := (latest_eq_none_iff t u).mp hl
      refine ⟨rfl, by simp, rfl, fun _ _ => rfl, ?_⟩
      rintro _ ⟨r, hr, hru⟩
      exact absurd hru (hnone r hr)
    | some e =>
      have he := latest_some_spec t u e hl
      rw [verify_mismatch B t u token ip f e hq hl (hno e he.1 he.2.1)]
      refine ⟨rfl, by simp, rfl, ?_, fun _ _ => rfl⟩
      intro _ hall
      exact absurd he.2.1 (hall e he.1)

theorem verify_unmatched_fails_unchanged_witness :
    (VerifyRefreshToken idealBcrypt [sampleRow "u" tokenA (sampleSalt 1) "10.0.0.1" 5] "u"
        tokenB "10.0.0.1" noFaults).valid = false ∧
    (VerifyRefreshToken idealBcrypt [sampleRow "u" tokenA (sampleSalt 1) "10.0.0.1" 5] "u"
        tokenB "10.0.0.1" noFaults).err = some errInvalid ∧
    (VerifyRefreshToken idealBcrypt [sampleRow "u" tokenA (sampleSalt 1) "10.0.0.1" 5] "u"
        tokenB "10.0.0.1" noFaults).table
      = [sampleRow "u" tokenA (sampleSalt 1) "10.0.0.1" 5] :=
  have h := verify_unmatched_fails_unchanged idealBcrypt
    [sampleRow "u" tokenA (sampleSalt 1) "10.0.0.1" 5] "u" tokenB "10.0.0.1" noFaults (by decide)
  ⟨h.1, h.2.2.2.2 rfl ⟨_, List.mem_singleton.mpr rfl, rfl⟩, h.2.2.1⟩

/-- C4: the client address is advisory only.  For any two client addresses
`VerifyRefreshToken` returns the same boolean and the same error and leaves the
same table; a token that matches the selected row is accepted although the
address stored in that row differs from the presented one. -/
theorem verify_ip_advisory (B : Bcrypt) (t : Table) (u : String) (token : List Byte)
    (ip1 ip2 : String) (f : DBFaults) :
    (VerifyRefreshToken B t u token ip1 f).valid = (VerifyRefreshToken B t u token ip2 f).valid ∧
    (VerifyRefreshToken B t u token ip1 f).err = (VerifyRefreshToken B t u token ip2 f).err ∧
    (VerifyRefreshToken B t u token ip1 f).table = (VerifyRefreshToken B t u token ip2 f).table ∧
    (∀ e, queryRowLatest t u f = .ok e → f.exec = none →
      B.CompareHashAndPassword e.RefreshTokenHash token = true → e.ClientIP ≠ ip1 →
      (VerifyRefreshToken B t u token ip1 f).valid = true ∧
      (VerifyRefreshToken B t u token ip1 f).err = none ∧
      (VerifyRefreshToken B t u token ip1 f).log = [LogLine.ipChanged u e.ClientIP ip1]) := by
  refine ⟨?_, ?_, ?_, ?_⟩
  · unfold VerifyRefreshToken
    cases queryRowLatest t u f with
    | error err => cases err <;> rfl
    | ok e =>
      simp only []
      split
      · rfl
      · cases execDelete t u e.RefreshTokenHash f <;> rfl
  · unfold VerifyRefreshToken
    cases queryRowLatest t u f with
    | error err => cases err <;> rfl
    | ok e =>
      simp only []
      split
      · rfl
      · cases execDelete t u e.RefreshTokenHash f <;> rfl
  · unfold VerifyRefreshToken
    cases queryRowLatest t u f with
    | error err => cases err <;> rfl
    | ok e =>
      simp only []
      split
      · rfl
      · cases execDelete t u e.RefreshTokenHash f <;> rfl
  · intro e he hx hc hip
    simp [VerifyRefreshToken, he, hc, execDelete, hx, hip]

theorem verify_ip_advisory_witness :
    (VerifyRefreshToken idealBcrypt [sampleRow "u" tokenA (sampleSalt 1) "10.0.0.1" 5] "u"
        tokenA "10.9.9.9" noFaults).valid = true ∧
    (VerifyRefreshToken idealBcrypt [sampleRow "u" tokenA (sampleSalt 1) "10.0.0.1" 5] "u"
        tokenA "10.9.9.9" noFaults).err = none ∧
    (VerifyRefreshToken idealBcrypt [sampleRow "u" tokenA (sampleSalt 1) "10.0.0.1" 5] "u"
        tokenA "10.9.9.9" noFaults).log = [LogLine.ipChanged "u" "10.0.0.1" "10.9.9.9"] :=
  (verify_ip_advisory idealBcrypt [sampleRow "u" tokenA (sampleSalt 1) "10.0.0.1" 5] "u"
    tokenA "10.9.9.9" "10.0.0.1" noFaults).2.2.2
    (sampleRow "u" tokenA (sampleSalt 1) "10.0.0.1" 5) (by rfl) rfl (by decide) (by decide)

/-- C5: success is reported only when the deletion is confirmed.  If the
`DELETE` is refused the call never returns `true`, and when it is reached (the
selected row matches the token) the call returns `false` with the datastore
error; whenever the call returns `true` there is no error and no row of the
user with the matched hash is left in the table. -/
theorem verify_true_only_after_delete (B : Bcrypt) (t : Table) (u : String)
    (token : List Byte) (ip : String) (f : DBFaults) :
    (∀ msg, f.exec = some msg → (VerifyRefreshToken B t u token ip f).valid = false) ∧
    (∀ msg e, f.exec = some msg → queryRowLatest t u f = .ok e →
      B.CompareHashAndPassword e.RefreshTokenHash token = true →
      (VerifyRefreshToken B t u token ip f).valid = false ∧
      (VerifyRefreshToken B t u token ip f).err = some (.db msg) ∧
      (VerifyRefreshToken B t u token ip f).table = t) ∧
    ((VerifyRefreshToken B t u token ip f).valid = true →
      (VerifyRefreshToken B t u token ip f).err = none ∧
      ∃ e, latest t u = some e ∧ B.CompareHashAndPassword e.RefreshTokenHash token = true ∧
        ∀ r ∈ (VerifyRefreshToken B t u token ip f).table,
          ¬ (r.UserID = u ∧ r.RefreshTokenHash = e.RefreshTokenHash)) := by
  cases hq : f.query with
  | some qmsg =>
    rw [verify_query_fault B t u token ip f qmsg hq]
    refine ⟨fun _ _ => rfl, ?_, by simp⟩
    intro msg e _ he
    simp [queryRowLatest, hq] at he
  | none =>
    cases hl : latest t u with
    | none =>
      rw [verify_no_rows B t u token ip f hq hl]
      refine ⟨fun _ _ => rfl, ?_, by simp⟩
      intro msg e _ he
      simp [queryRowLatest, hq, hl] at he
    | some e =>
      cases hc : B.CompareHashAndPassword e.RefreshTokenHash token with
      | false =>
        rw [verify_mismatch B t u token ip f e hq hl hc]
        refine ⟨fun _ _ => rfl, ?_, by simp⟩
        intro msg e1 _ he hc1
        simp only [queryRowLatest, hq, hl, Except.ok.injEq] at he
        rw [← he, hc] at hc1
        simp at hc1
      | true =>
        cases hx : f.exec with
        | some xmsg =>
          rw [verify_delete_fault B t u token ip f e xmsg hq hl hc hx]
          refine ⟨fun _ _ => rfl, ?_, by simp⟩
          intro msg e1 hm _ _
          have : xmsg = msg := by simpa using hm
          subst this
          exact ⟨rfl, rfl, rfl⟩
        | none =>
          rw [verify_match B t u token ip f e hq hl hc hx]
          refine ⟨by simp, by simp, ?_⟩
          intro _
          refine ⟨rfl, e, rfl, hc, ?_⟩
          intro r hr
          have h2 := (List.mem_filter.mp hr).2
          simpa only [decide_eq_true_eq] using h2

theorem verify_true_only_after_delete_witness :
    (VerifyRefreshToken idealBcrypt twoRows "u" tokenB "10.0.0.1"
        ⟨none, some "connection reset"⟩).valid = false ∧
    (VerifyRefreshToken idealBcrypt twoRows "u" tokenB "10.0.0.1"
        ⟨none, some "connection reset"⟩).err = some (.db "connection reset") ∧
    (VerifyRefreshToken idealBcrypt twoRows "u" tokenB "10.0.0.1"
        ⟨none, some "connection reset"⟩).table = twoRows :=
  (verify_true_only_after_delete idealBcrypt twoRows "u" tokenB "10.0.0.1"
    ⟨none, some "connection reset"⟩).2.1 "connection reset"
    (sampleRow "u" tokenB (sampleSalt 2) "10.0.0.1" 9) rfl (by rfl) (by decide)

/-- C6: the verifier decides on a most recently created row of the user.  When
the user has a row, there is a row of the user with the greatest `created_at`
such that the boolean and the error returned are the ones returned on the
table that holds this row alone; a token that matches no row of the user with
the greatest `created_at` (it may match older ones) fails with
`invalid refresh token` and the table is left as it was. -/
theorem verify_decides_on_latest (B : Bcrypt) (t : Table) (u : String) (token : List Byte)
    (ip : String) (f : DBFaults) (hu : ∃ r ∈ t, r.UserID = u) :
    (∃ top ∈ t, top.UserID = u ∧ (∀ r ∈ t, r.UserID = u → r.CreatedAt ≤ top.CreatedAt) ∧
      (VerifyRefreshToken B t u token ip f).valid
        = (VerifyRefreshToken B [top] u token ip f).valid ∧
      (VerifyRefreshToken B t u token ip f).err
        = (VerifyRefreshToken B [top] u token ip f).err) ∧
    ((∀ r ∈ t, r.UserID = u → (∀ x ∈ t, x.UserID = u → x.CreatedAt ≤ r.CreatedAt) →
        B.CompareHashAndPassword r.RefreshTokenHash token = false) →
      f.query = none →
      (VerifyRefreshToken B t u token ip f).valid = false ∧
      (VerifyRefreshToken B t u token ip f).err = some errInvalid ∧
      (VerifyRefreshToken B t u token ip f).table = t) := by
  cases hl : latest t u with
  | none =>
    obtain ⟨r, hr, hru⟩ := hu
    exact absurd hru ((latest_eq_none_iff t u).mp hl r hr)
  | some e =>
    have he := latest_some_spec t u e hl
    have hl1 : latest [e] u = some e := by
      simp [latest, List.filter, he.2.1, newer]
    constructor
    · refine ⟨e, he.1, he.2.1, he.2.2, ?_⟩
      cases hq : f.query with
      | some qmsg =>
        rw [verify_query_fault B t u token ip f qmsg hq,
          verify_query_fault B [e] u token ip f qmsg hq]
        exact ⟨rfl, rfl⟩
      | none =>
        cases hc : B.CompareHashAndPassword e.RefreshTokenHash token with
        | false =>
          rw [verify_mismatch B t u token ip f e hq hl hc,
            verify_mismatch B [e] u token ip f e hq hl1 hc]
          exact ⟨rfl, rfl⟩
        | true =>
          cases hx : f.exec with
          | some xmsg =>
            rw [verify_delete_fault B t u token ip f e xmsg hq hl hc hx,
              verify_delete_fault B [e] u token ip f e xmsg hq hl1 hc hx]
            exact ⟨rfl, rfl⟩
          | none =>
            rw [verify_match B t u token ip f e hq hl hc hx,
              verify_match B [e] u token ip f e hq hl1 hc hx]
            exact ⟨rfl, rfl⟩
    · intro hno hq
      rw [verify_mismatch B t u token ip f e hq hl (hno e he.1 he.2.1 he.2.2)]
      exact ⟨rfl, rfl, rfl⟩

theorem verify_decides_on_latest_witness :
    (VerifyRefreshToken idealBcrypt twoRows "u" tokenA "10.0.0.1" noFaults).valid = false ∧
    (VerifyRefreshToken idealBcrypt twoRows "u" tokenA "10.0.0.1" noFaults).err
      = some errInvalid ∧
    (VerifyRefreshToken idealBcrypt twoRows "u" tokenA "10.0.0.1" noFaults).table = twoRows :=
  (verify_decides_on_latest idealBcrypt twoRows "u" tokenA "10.0.0.1" noFaults
    ⟨sampleRow "u" tokenA (sampleSalt 1) "10.0.0.1" 5, by decide, rfl⟩).2 (by decide) rfl

/-! ## The idealised hash primitive has the three properties -/

theorem keyBytes_length (p : List Byte) : (keyBytes p).length = 72 := by
  simp [keyBytes]

theorem keyBytes_of_long (p : List Byte) (h : 72 ≤ p.length) : keyBytes p = p.take 72 := by
  apply List.ext_getElem
  · simp [keyBytes, h]
  · intro i h1 h2
    have hi : i < 72 := by simpa [keyBytes] using h1
    have hmod : i % (p.length + 1) = i := Nat.mod_eq_of_lt (by omega)
    have hip : i < p.length := by omega
    simp [keyBytes, hmod, List.getD_eq_getElem?_getD, List.getElem?_append_left hip,
      List.getElem?_eq_getElem hip]

theorem keyBytes_take (p : List Byte) : keyBytes (p.take 72) = keyBytes p := by
  by_cases h : 72 ≤ p.length
  · rw [keyBytes_of_long p h, keyBytes_of_long (p.take 72) (by simp [h])]
    simp
  · rw [List.take_of_length_le (by omega)]

theorem idealBcrypt_truncates : idealBcrypt.Truncates := by
  intro hash password
  simp [idealBcrypt, keyBytes_take]

theorem idealBcrypt_accepts : idealBcrypt.Accepts := by
  intro password cost salt hash h
  simp only [idealBcrypt] at h ⊢
  split at h
  · rename_i hs
    have hh : salt ++ keyBytes password = hash := by simpa using h
    subst hh
    have hd : List.drop 16 (salt ++ keyBytes password) = keyBytes password := by
      rw [← hs]; simp
    simp [keyBytes_length, hs, hd]
  · simp at h

theorem idealBcrypt_collisionFree : idealBcrypt.CollisionFree := by
  intro p q cost salt hash hp hq h hc
  simp only [idealBcrypt] at h hc
  split at h
  · rename_i hs
    have hh : salt ++ keyBytes p = hash := by simpa using h
    subst hh
    have hd : List.drop 16 (salt ++ keyBytes p) = keyBytes p := by
      rw [← hs]; simp
    simp only [hd, Bool.and_eq_true, beq_iff_eq] at hc
    rw [← keyBytes_of_long p hp, ← keyBytes_of_long q hq]
    exact hc.2
  · simp at h

/-! ## `StoreRefreshToken` -/

theorem store_success (B : Bcrypt) (t : Table) (u : String) (token : List Byte) (ip : String)
    (now : Int) (salt : List Byte) (f : DBFaults) (r : StoreResult)
    (hs : StoreRefreshToken B t u token ip now salt f = some r) (hok : r.err = none) :
    72 ≤ token.length ∧ ∃ hash,
      B.GenerateFromPassword (token.take 72) Bcrypt.DefaultCost salt = .ok hash ∧
      r.table = t ++ [⟨u, hash, ip, now⟩] := by
  unfold StoreRefreshToken at hs
  split at hs
  · simp at hs
  · rename_i hlen
    refine ⟨by omega, ?_⟩
    simp only [] at hs
    cases hg : B.GenerateFromPassword (List.take 72 token) Bcrypt.DefaultCost salt with
    | error err =>
      rw [hg] at hs
      simp only [Option.some.injEq] at hs
      rw [← hs] at hok
      simp at hok
    | ok hash =>
      rw [hg] at hs
      refine ⟨hash, rfl, ?_⟩
      cases hx : f.exec with
      | some msg =>
        simp only [execInsert, hx, Option.some.injEq] at hs
        rw [← hs] at hok
        simp at hok
      | none =>
        simp only [execInsert, hx, Option.some.injEq] at hs
        rw [← hs]

theorem stored_hash_accepts (B : Bcrypt) (hT : B.Truncates) (hA : B.Accepts)
    (token salt hash : List Byte) (cost : Nat)
    (hg : B.GenerateFromPassword (token.take 72) cost salt = .ok hash) :
    B.CompareHashAndPassword hash token = true := by
  rw [hT hash token]
  exact hA _ _ _ _ hg

theorem delete_keeps_others (t : Table) (u : String) (hash : List Byte)
    (h : ∀ r ∈ t, r.UserID = u → r.RefreshTokenHash ≠ hash) :
    t.filter (fun r => ¬ (r.UserID = u ∧ r.RefreshTokenHash = hash)) = t := by
  rw [List.filter_eq_self]
  intro r hr
  simp only [decide_eq_true_eq]
  intro hh
  exact h r hr hh.1 hh.2

theorem delete_after_append (t : Table) (u : String) (hash : List Byte) (ip : String)
    (now : Int) (h : ∀ r ∈ t, r.UserID = u → r.RefreshTokenHash ≠ hash) :
    (t ++ [(⟨u, hash, ip, now⟩ : RefreshTokenEntry)]).filter
        (fun r => ¬ (r.UserID = u ∧ r.RefreshTokenHash = hash)) = t := by
  rw [List.filter_append, delete_keeps_others t u hash h]
  simp [List.filter]

/-! ## Storing and then verifying -/

/-- C1 (as stated, refuted): the round trip does not hold from every table.
First, when the user already has a row created later than the new one, the
first `VerifyRefreshToken` after a successful `StoreRefreshToken` of `tokenA`
selects that other row and fails.  Second, when the user already has an older
row for the same token, the first verification consumes the new row only and
the second verification made immediately afterwards succeeds as well. -/
theorem store_verify_round_trip_counterexample :
    (StoreRefreshToken idealBcrypt laterRow "u" tokenA "10.0.0.1" 5 (sampleSalt 1) noFaults
        = some ⟨none, laterRow ++ [sampleRow "u" tokenA (sampleSalt 1) "10.0.0.1" 5],
            [.storing "u" "10.0.0.1", .stored]⟩ ∧
      VerifyRefreshToken idealBcrypt
          (laterRow ++ [sampleRow "u" tokenA (sampleSalt 1) "10.0.0.1" 5])
          "u" tokenA "10.0.0.1" noFaults
        = ⟨false, some errInvalid,
            laterRow ++ [sampleRow "u" tokenA (sampleSalt 1) "10.0.0.1" 5], []⟩) ∧
    (StoreRefreshToken idealBcrypt sameTokenRow "u" tokenA "10.0.0.1" 9 (sampleSalt 2) noFaults
        = some ⟨none, sameTokenRow ++ [sampleRow "u" tokenA (sampleSalt 2) "10.0.0.1" 9],
            [.storing "u" "10.0.0.1", .stored]⟩ ∧
      VerifyRefreshToken idealBcrypt
          (sameTokenRow ++ [sampleRow "u" tokenA (sampleSalt 2) "10.0.0.1" 9])
          "u" tokenA "10.0.0.1" noFaults
        = ⟨true, none, sameTokenRow, []⟩ ∧
      VerifyRefreshToken idealBcrypt sameTokenRow "u" tokenA "10.0.0.1" noFaults
        = ⟨true, none, [], []⟩) := by
  decide

/-- C1 (amended): from a table in which every row of the user was created
before the new one and no most recently created row of the user matches the
token, after `StoreRefreshToken` succeeds (which it does for tokens of at least
72 bytes only) the first `VerifyRefreshToken` returns `true` without error,
and a second one made immediately afterwards returns `false` with
`refresh token not found` or `invalid refresh token` and changes nothing.  The
datastore answers both verifications; the hash primitive reads 72 bytes and
accepts its own hashes. -/
theorem store_verify_round_trip (B : Bcrypt) (hT : B.Truncates) (hA : B.Accepts)
    (t : Table) (u : String) (token : List Byte) (ip : String) (now : Int) (salt : List Byte)
    (f : DBFaults) (r : StoreResult)
    (hold : ∀ x ∈ t, x.UserID = u → x.CreatedAt < now)
    (hno : ∀ x ∈ t, x.UserID = u → (∀ y ∈ t, y.UserID = u → y.CreatedAt ≤ x.CreatedAt) →
      B.CompareHashAndPassword x.RefreshTokenHash token = false)
    (hs : StoreRefreshToken B t u token ip now salt f = some r) (hok : r.err = none) :
    (VerifyRefreshToken B r.table u token ip noFaults).valid = true ∧
    (VerifyRefreshToken B r.table u token ip noFaults).err = none ∧
    (VerifyRefreshToken B (VerifyRefreshToken B r.table u token ip noFaults).table
        u token ip noFaults).valid = false ∧
    ((VerifyRefreshToken B (VerifyRefreshToken B r.table u token ip noFaults).table
        u token ip noFaults).err = some errNotFound ∨
      (VerifyRefreshToken B (VerifyRefreshToken B r.table u token ip noFaults).table
        u token ip noFaults).err = some errInvalid) ∧
    (VerifyRefreshToken B (VerifyRefreshToken B r.table u token ip noFaults).table
        u token ip noFaults).table
      = (VerifyRefreshToken B r.table u token ip noFaults).table := by
  obtain ⟨_, hash, hg, htab⟩ := store_success B t u token ip now salt f r hs hok
  have hacc := stored_hash_accepts B hT hA token salt hash _ hg
  have hl : latest (t ++ [⟨u, hash, ip, now⟩]) u = some ⟨u, hash, ip, now⟩ :=
    latest_append_newer t u ⟨u, hash, ip, now⟩ rfl hold
  have hfirst : VerifyRefreshToken B r.table u token ip noFaults
      = ⟨true, none,
          t.filter (fun x => ¬ (x.UserID = u ∧ x.RefreshTokenHash = hash)), []⟩ := by
    rw [htab, verify_match B _ u token ip noFaults ⟨u, hash, ip, now⟩ rfl hl hacc rfl]
    dsimp only
    rw [List.filter_append]
    simp [List.filter]
  rw [hfirst]
  refine ⟨rfl, rfl, ?_⟩
  dsimp only
  cases hl2 : latest (t.filter (fun x => ¬ (x.UserID = u ∧ x.RefreshTokenHash = hash))) u with
  | none =>
    rw [verify_no_rows B _ u token ip noFaults rfl hl2]
    exact ⟨rfl, Or.inl rfl, rfl⟩
  | some e1 =>
    obtain ⟨he1mem, he1u, he1max⟩ := latest_some_spec _ u e1 hl2
    have he1t : e1 ∈ t := (List.mem_filter.mp he1mem).1
    have hmax : ∀ y ∈ t, y.UserID = u → y.CreatedAt ≤ e1.CreatedAt := by
      cases hl3 : latest t u with
      | none => exact fun y hy hyu => absurd hyu ((latest_eq_none_iff t u).mp hl3 y hy)
      | some e =>
        obtain ⟨hemem, heu, hemax⟩ := latest_some_spec t u e hl3
        have hrej := hno e hemem heu hemax
        have hkeep : e ∈ t.filter (fun x => ¬ (x.UserID = u ∧ x.RefreshTokenHash = hash)) := by
          rw [List.mem_filter]
          refine ⟨hemem, ?_⟩
          simp only [decide_eq_true_eq]
          rintro ⟨_, hh⟩
          rw [hh, hacc] at hrej
          simp at hrej
        have hle := he1max e hkeep heu
        intro y hy hyu
        exact le_trans (hemax y hy hyu) hle
    rw [verify_mismatch B _ u token ip noFaults e1 rfl hl2 (hno e1 he1t he1u hmax)]
    exact ⟨rfl, Or.inr rfl, rfl⟩

theorem store_verify_round_trip_witness :
    (VerifyRefreshToken idealBcrypt twoRows "u" tokenB "10.0.0.1" noFaults).valid = true ∧
    (VerifyRefreshToken idealBcrypt
        (VerifyRefreshToken idealBcrypt twoRows "u" tokenB "10.0.0.1" noFaults).table
        "u" tokenB "10.0.0.1" noFaults).valid = false ∧
    (VerifyRefreshToken idealBcrypt
        (VerifyRefreshToken idealBcrypt twoRows "u" tokenB "10.0.0.1" noFaults).table
        "u" tokenB "10.0.0.1" noFaults).err = some errInvalid :=
  have h := store_verify_round_trip idealBcrypt idealBcrypt_truncates idealBcrypt_accepts
    sameTokenRow "u" tokenB "10.0.0.1" 9 (sampleSalt 2) noFaults
    ⟨none, twoRows, [.storing "u" "10.0.0.1", .stored]⟩
    (by decide) (by decide) (by decide) rfl
  ⟨h.1, h.2.2.1, h.2.2.2.1.resolve_left (by decide)⟩

/-! ## The bcrypt calls built from the key schedule -/

theorem decodeHash_encodeHash (cost : Nat) (salt digest : List Byte) (hs : salt.length = 16)
    (hc : cost ≤ 31) : decodeHash (encodeHash cost salt digest) = some (cost, salt, digest) := by
  have hv : (Fin.ofNat cost : Byte).val = cost := by
    show cost % 256 = cost
    omega
  have ht : List.take 16 (salt ++ digest) = salt := by
    rw [← hs]; simp
  have hd : List.drop 16 (salt ++ digest) = digest := by
    rw [← hs]; simp
  simp [decodeHash, encodeHash, hs, hv, ht, hd]

theorem bcryptOf_truncates (crypt : Nat → List Byte → List Byte → List Byte) :
    (bcryptOf crypt).Truncates := by
  intro hash password
  simp only [bcryptOf, keyBytes_take]

theorem bcryptOf_accepts (crypt : Nat → List Byte → List Byte → List Byte) :
    (bcryptOf crypt).Accepts := by
  intro password cost salt hash h
  simp only [bcryptOf] at h ⊢
  by_cases h1 : 72 < password.length
  · simp [h1] at h
  · by_cases h2 : salt.length = 16
    · by_cases h3 : 31 < effectiveCost cost
      · simp [h1, h2, h3] at h
      · simp only [h1, h2, h3, if_false, ne_eq, not_true_eq_false, Except.ok.injEq] at h
        rw [← h, decodeHash_encodeHash _ salt _ h2 (by omega)]
        simp
    · simp [h1, h2] at h

/-- C3: `VerifyRefreshToken` hands the presented token whole to
`CompareHashAndPassword`, whose key schedule reads its first 72 bytes, the
bytes `StoreRefreshToken` keeps before hashing.  For the bcrypt calls built on
any cipher: two presented tokens that agree on their first 72 bytes get the
same result, table and output; when the lookup is answered and the `DELETE`
is not refused, the token is accepted exactly when its first 72 bytes are
accepted for the hash of the selected row; and after `StoreRefreshToken`
succeeds for a token of 72 bytes or more, the token presented in full is
accepted for the hash of its own row, and `VerifyRefreshToken` returns `true`
without error whenever that row is the one selected. -/
theorem verify_truncates_like_store (crypt : Nat → List Byte → List Byte → List Byte) :
    (∀ (t : Table) (u : String) (ip : String) (f : DBFaults) (tok1 tok2 : List Byte),
      tok1.take 72 = tok2.take 72 →
      VerifyRefreshToken (bcryptOf crypt) t u tok1 ip f
        = VerifyRefreshToken (bcryptOf crypt) t u tok2 ip f) ∧
    (∀ (t : Table) (u : String) (ip : String) (f : DBFaults) (token : List Byte)
      (e : RefreshTokenEntry), queryRowLatest t u f = .ok e → f.exec = none →
      (VerifyRefreshToken (bcryptOf crypt) t u token ip f).valid
        = (bcryptOf crypt).CompareHashAndPassword e.RefreshTokenHash (token.take 72)) ∧
    (∀ (t : Table) (u : String) (token : List Byte) (ip : String) (now : Int)
      (salt : List Byte) (f : DBFaults) (r : StoreResult), 72 ≤ token.length →
      StoreRefreshToken (bcryptOf crypt) t u token ip now salt f = some r → r.err = none →
      ∃ hash, r.table = t ++ [⟨u, hash, ip, now⟩] ∧
        (bcryptOf crypt).CompareHashAndPassword hash token = true ∧
        ∀ (ip2 : String) (f2 : DBFaults),
          queryRowLatest r.table u f2 = .ok ⟨u, hash, ip, now⟩ → f2.exec = none →
          (VerifyRefreshToken (bcryptOf crypt) r.table u token ip2 f2).valid = true ∧
          (VerifyRefreshToken (bcryptOf crypt) r.table u token ip2 f2).err = none) := by
  have hT := bcryptOf_truncates crypt
  have hA := bcryptOf_accepts crypt
  refine ⟨?_, ?_, ?_⟩
  · intro t u ip f tok1 tok2 h
    have hc : ∀ hash, (bcryptOf crypt).CompareHashAndPassword hash tok1
        = (bcryptOf crypt).CompareHashAndPassword hash tok2 := by
      intro hash
      rw [hT hash tok1, hT hash tok2, h]
    unfold VerifyRefreshToken
    cases queryRowLatest t u f with
    | error err => cases err <;> rfl
    | ok e => simp only [hc]
  · intro t u ip f token e he hx
    rw [← hT e.RefreshTokenHash token]
    cases hc : (bcryptOf crypt).CompareHashAndPassword e.RefreshTokenHash token with
    | false => simp [VerifyRefreshToken, he, hc]
    | true => simp [VerifyRefreshToken, he, hc, execDelete, hx]
  · intro t u token ip now salt f r _ hs hok
    obtain ⟨_, hash, hg, htab⟩ :=
      store_success (bcryptOf crypt) t u token ip now salt f r hs hok
    have hacc := stored_hash_accepts (bcryptOf crypt) hT hA token salt hash _ hg
    refine ⟨hash, htab, hacc, ?_⟩
    intro ip2 f2 hq hx
    simp [VerifyRefreshToken, hq, hacc, execDelete, hx]

theorem verify_truncates_like_store_witness :
    (VerifyRefreshToken (bcryptOf sampleCrypt)
        (sameTokenRow ++ [cryptRow "u" tokenB (sampleSalt 2) "10.0.0.1" 9])
        "u" tokenB "10.9.9.9" noFaults).valid = true ∧
    (VerifyRefreshToken (bcryptOf sampleCrypt)
        (sameTokenRow ++ [cryptRow "u" tokenB (sampleSalt 2) "10.0.0.1" 9])
        "u" tokenB "10.9.9.9" noFaults).err = none := by
  obtain ⟨hash, htab, _, hv⟩ := (verify_truncates_like_store sampleCrypt).2.2
    sameTokenRow "u" tokenB "10.0.0.1" 9 (sampleSalt 2) noFaults
    ⟨none, sameTokenRow ++ [cryptRow "u" tokenB (sampleSalt 2) "10.0.0.1" 9],
      [.storing "u" "10.0.0.1", .stored]⟩
    (by decide) (by decide) rfl
  have hh : hash = encodeHash Bcrypt.DefaultCost (sampleSalt 2) (keyBytes (tokenB.take 72)) := by
    have h1 := List.append_cancel_left htab
    simp only [cryptRow, List.cons.injEq, RefreshTokenEntry.mk.injEq, and_true, true_and] at h1
    exact h1.symm
  subst hh
  exact hv "10.9.9.9" noFaults (by rfl) rfl

/-- C10: consuming the newest refresh token makes an older unconsumed one
usable again.  For a user without rows and two tokens of at least 72 bytes
that differ within their first 72 bytes, after `StoreRefreshToken` of the first
and a later `StoreRefreshToken` of the second, verifying the first fails with
`invalid refresh token` and changes nothing, verifying the second then
succeeds and removes the second row only, and verifying the first after that
succeeds.  The datastore answers the three verifications; the hash primitive
reads 72 bytes, accepts its own hashes and has no collisions. -/
theorem older_token_usable_again (B : Bcrypt) (hT : B.Truncates) (hA : B.Accepts)
    (hF : B.CollisionFree) (t : Table) (u : String) (t1 t2 : List Byte) (ip : String)
    (now1 now2 : Int) (salt1 salt2 : List Byte) (f1 f2 : DBFaults) (r1 r2 : StoreResult)
    (hu : ∀ x ∈ t, x.UserID ≠ u) (h1 : 72 ≤ t1.length) (h2 : 72 ≤ t2.length)
    (hd : t1.take 72 ≠ t2.take 72) (hlater : now1 < now2)
    (hs1 : StoreRefreshToken B t u t1 ip now1 salt1 f1 = some r1) (hok1 : r1.err = none)
    (hs2 : StoreRefreshToken B r1.table u t2 ip now2 salt2 f2 = some r2) (hok2 : r2.err = none) :
    VerifyRefreshToken B r2.table u t1 ip noFaults = ⟨false, some errInvalid, r2.table, []⟩ ∧
    VerifyRefreshToken B r2.table u t2 ip noFaults = ⟨true, none, r1.table, []⟩ ∧
    VerifyRefreshToken B r1.table u t1 ip noFaults = ⟨true, none, t, []⟩ := by
  obtain ⟨_, hash1, hg1, htab1⟩ := store_success B t u t1 ip now1 salt1 f1 r1 hs1 hok1
  obtain ⟨_, hash2, hg2, htab2⟩ := store_success B r1.table u t2 ip now2 salt2 f2 r2 hs2 hok2
  have hacc1 := stored_hash_accepts B hT hA t1 salt1 hash1 _ hg1
  have hacc2 := stored_hash_accepts B hT hA t2 salt2 hash2 _ hg2
  have hrej : B.CompareHashAndPassword hash2 t1 = false := by
    cases hc : B.CompareHashAndPassword hash2 t1 with
    | false => rfl
    | true =>
      have := hF (t2.take 72) t1 _ salt2 hash2 (by simp [h2]) h1 hg2 hc
      rw [List.take_take] at this
      simp only [min_self] at this
      exact absurd this.symm hd
  have hne : hash1 ≠ hash2 := by
    intro heq
    rw [heq, hrej] at hacc1
    simp at hacc1
  have hold1 : ∀ x ∈ t, x.UserID = u → x.CreatedAt < now1 :=
    fun x hx hxu => absurd hxu (hu x hx)
  have hold2 : ∀ x ∈ r1.table, x.UserID = u → x.CreatedAt < now2 := by
    intro x hx hxu
    rw [htab1] at hx
    rcases List.mem_append.mp hx with h | h
    · exact absurd hxu (hu x h)
    · rw [List.mem_singleton.mp h]; exact hlater
  have hl1 : latest r1.table u = some ⟨u, hash1, ip, now1⟩ := by
    rw [htab1]; exact latest_append_newer t u _ rfl hold1
  have hl2 : latest r2.table u = some ⟨u, hash2, ip, now2⟩ := by
    rw [htab2]; exact latest_append_newer r1.table u _ rfl hold2
  have hk1 : ∀ x ∈ t, x.UserID = u → x.RefreshTokenHash ≠ hash1 :=
    fun x hx hxu => absurd hxu (hu x hx)
  have hk2 : ∀ x ∈ r1.table, x.UserID = u → x.RefreshTokenHash ≠ hash2 := by
    intro x hx hxu
    rw [htab1] at hx
    rcases List.mem_append.mp hx with h | h
    · exact absurd hxu (hu x h)
    · rw [List.mem_singleton.mp h]; exact hne
  refine ⟨?_, ?_, ?_⟩
  · exact verify_mismatch B r2.table u t1 ip noFaults _ rfl hl2 hrej
  · rw [verify_match B r2.table u t2 ip noFaults _ rfl hl2 hacc2 rfl, htab2]
    dsimp only
    rw [delete_after_append r1.table u hash2 ip now2 hk2]
    simp
  · rw [verify_match B r1.table u t1 ip noFaults _ rfl hl1 hacc1 rfl, htab1]
    dsimp only
    rw [delete_after_append t u hash1 ip now1 hk1]
    simp

theorem older_token_usable_again_witness :
    VerifyRefreshToken idealBcrypt twoRows "u" tokenA "10.0.0.1" noFaults
      = ⟨false, some errInvalid, twoRows, []⟩ ∧
    VerifyRefreshToken idealBcrypt twoRows "u" tokenB "10.0.0.1" noFaults
      = ⟨true, none, sameTokenRow, []⟩ ∧
    VerifyRefreshToken idealBcrypt sameTokenRow "u" tokenA "10.0.0.1" noFaults
      = ⟨true, none, [], []⟩ :=
  older_token_usable_again idealBcrypt idealBcrypt_truncates idealBcrypt_accepts
    idealBcrypt_collisionFree [] "u" tokenA tokenB "10.0.0.1" 5 9 (sampleSalt 1) (sampleSalt 2)
    noFaults noFaults ⟨none, sameTokenRow, [.storing "u" "10.0.0.1", .stored]⟩
    ⟨none, twoRows, [.storing "u" "10.0.0.1", .stored]⟩
    (by simp) (by decide) (by decide) (by decide) (by decide) (by decide) rfl (by decide) rfl

/-! ## `GenerateRefreshToken` -/

theorem EncodeToString_test_vectors :
    EncodeToString (ascii "") = ascii "" ∧
    EncodeToString (ascii "f") = ascii "Zg==" ∧
    EncodeToString (ascii "fo") = ascii "Zm8=" ∧
    EncodeToString (ascii "foo") = ascii "Zm9v" ∧
    EncodeToString (ascii "foob") = ascii "Zm9vYg==" ∧
    EncodeToString (ascii "fooba") = ascii "Zm9vYmE=" ∧
    EncodeToString (ascii "foobar") = ascii "Zm9vYmFy" ∧
    EncodeToString [251, 255] = ascii "-_8=" := by
  decide

theorem encodeByte_safe (v : Nat) : isURLSafeChar (encodeByte v) = true := by
  have hlt : v &&& 0x3F < 64 := Nat.lt_succ_of_le Nat.and_le_right
  have hall : ∀ i, i < 64 → isURLSafeChar (encodeURL.getD i 0) = true := by decide
  exact hall _ hlt

theorem EncodeToString_length (l : List Byte) :
    (EncodeToString l).length = 4 * ((l.length + 2) / 3) := by
  induction l using EncodeToString.induct with
  | case1 => rfl
  | case2 a => simp [EncodeToString]
  | case3 a b => simp [EncodeToString]
  | case4 a b c rest ih =>
    simp only [EncodeToString, List.length_append, List.length_cons, List.length_nil, ih]
    omega

theorem EncodeToString_chars (l : List Byte) :
    ∀ b ∈ EncodeToString l, isURLSafeChar b = true ∨ b = StdPadding := by
  induction l using EncodeToString.induct with
  | case1 => simp [EncodeToString]
  | case2 a =>
    intro b hb
    simp only [EncodeToString, List.mem_cons, List.mem_singleton, List.not_mem_nil, or_false] at hb
    rcases hb with h | h | h | h
    · exact Or.inl (h ▸ encodeByte_safe _)
    · exact Or.inl (h ▸ encodeByte_safe _)
    · exact Or.inr h
    · exact Or.inr h
  | case3 a b0 =>
    intro b hb
    simp only [EncodeToString, List.mem_cons, List.mem_singleton, List.not_mem_nil, or_false] at hb
    rcases hb with h | h | h | h
    · exact Or.inl (h ▸ encodeByte_safe _)
    · exact Or.inl (h ▸ encodeByte_safe _)
    · exact Or.inl (h ▸ encodeByte_safe _)
    · exact Or.inr h
  | case4 a b0 c rest ih =>
    intro b hb
    simp only [EncodeToString, List.mem_append, List.mem_cons, List.mem_singleton,
      List.not_mem_nil, or_false] at hb
    rcases hb with (h | h | h | h) | h
    · exact Or.inl (h ▸ encodeByte_safe _)
    · exact Or.inl (h ▸ encodeByte_safe _)
    · exact Or.inl (h ▸ encodeByte_safe _)
    · exact Or.inl (h ▸ encodeByte_safe _)
    · exact ih b h

/-- C7: whatever bytes the random source delivers, `GenerateRefreshToken`
returns a string of exactly 88 characters, each of them a character of the
URL-safe base64 alphabet or the padding character `=`. -/
theorem generate_refresh_token_shape (H : SHA512) (raw : List Byte) :
    ∃ token, GenerateRefreshToken H (.ok raw) = .ok token ∧ token.length = 88 ∧
      ∀ b ∈ token, isURLSafeChar b = true ∨ b = StdPadding := by
  refine ⟨EncodeToString (H.Sum512 raw), rfl, ?_, EncodeToString_chars _⟩
  rw [EncodeToString_length, H.size]

/-! ## `GenerateAccessToken` -/

theorem idealJWT_roundTrips : idealJWT.RoundTrips := by
  intro claims key
  exact ⟨(claims, key), rfl, by simp [idealJWT]⟩

theorem unix_add_15_minutes (now : Int) : Unix (Add now (Minute * 15)) = Unix now + 900 := by
  unfold Unix Add Minute
  omega

/-- C8: for every user identifier, client address and issuance time,
`GenerateAccessToken` returns a token, and the claims parsed from it with the
signing secret are exactly `user_id` = the user identifier, `client_ip` = the
client address and `exp` = the Unix time of issuance plus 900 seconds.  The
token library signs with `HS512` and parses back what it signed. -/
theorem access_token_claims (J : JWT) (hJ : J.RoundTrips) (jwtSecret : List Byte)
    (userID clientIP : String) (now : Int) :
    ∃ token, GenerateAccessToken J jwtSecret userID clientIP now = .ok token ∧
      J.Parse token jwtSecret
        = .ok [("user_id", .str userID), ("client_ip", .str clientIP),
               ("exp", .num (Unix now + 900))] := by
  obtain ⟨token, hs, hp⟩ := hJ
    [("user_id", .str userID), ("client_ip", .str clientIP),
     ("exp", .num (Unix (Add now (Minute * 15))))] jwtSecret
  refine ⟨token, hs, ?_⟩
  rw [hp, unix_add_15_minutes]

theorem access_token_claims_witness :
    ∃ token, GenerateAccessToken idealJWT (ascii "supersecret") "test-user" "127.0.0.1"
        1700000000123456789 = .ok token ∧
      idealJWT.Parse token (ascii "supersecret")
        = .ok [("user_id", .str "test-user"), ("client_ip", .str "127.0.0.1"),
               ("exp", .num (Unix 1700000000123456789 + 900))] :=
  access_token_claims idealJWT idealJWT_roundTrips (ascii "supersecret") "test-user" "127.0.0.1"
    1700000000123456789

/-! ## The two routes under a datastore failure -/

/-- C9 (the code departs from the claim): a request of the refresh route with
a version 4 UUID and the matching token passes validation; when the datastore
refuses the `DELETE`, or the lookup, `VerifyRefreshToken` returns the datastore
error and the response has the unauthorized status 401, not a server-side
failure status.  The token route answers a refused `INSERT` with the
server-side failure status 500. -/
theorem refresh_route_storage_error_unauthorized :
    validateRefresh ⟨uuidUser, tokenA⟩ = none ∧
    VerifyRefreshToken idealBcrypt uuidRow uuidUser tokenA "10.0.0.1"
        ⟨none, some "connection reset"⟩
      = ⟨false, some (.db "connection reset"), uuidRow, []⟩ ∧
    (refreshHandler idealBcrypt idealJWT (ascii "supersecret") uuidRow
        (.ok ⟨uuidUser, tokenA⟩) "10.0.0.1" 1700000000123456789
        ⟨none, some "connection reset"⟩).1.status = StatusUnauthorized ∧
    VerifyRefreshToken idealBcrypt uuidRow uuidUser tokenA "10.0.0.1"
        ⟨some "connection refused", none⟩
      = ⟨false, some (.db "connection refused"), uuidRow, []⟩ ∧
    (refreshHandler idealBcrypt idealJWT (ascii "supersecret") uuidRow
        (.ok ⟨uuidUser, tokenA⟩) "10.0.0.1" 1700000000123456789
        ⟨some "connection refused", none⟩).1.status = StatusUnauthorized ∧
    StatusUnauthorized ≠ StatusInternalServerError ∧
    (tokenHandler idealBcrypt idealJWT sampleSum512 (ascii "supersecret") []
        (.ok ⟨uuidUser⟩) "10.0.0.1" 1700000000123456789 (.ok (sampleToken 64 7))
        (sampleSalt 1) 1700000000223456789 ⟨none, some "connection reset"⟩).map
      (fun x => x.1.status) = some StatusInternalServerError := by
  decide

end AuthService
